import Mathlib

/-!
# Unity project analyzer: shallow embedding and verification

This file embeds the Unity-asset analysis subsystem of the repository
(`src/services/unityParsers.ts` and `src/services/unityAnalyzer.ts`) as
executable Lean definitions and proves properties of it.

Modelling conventions:
* JavaScript regular-expression matching is embedded as explicit scanners over
  `List Char`, reproducing the source patterns' first-match, global-exec,
  greedy and lazy semantics (each scanner carries the pattern it embeds in
  its doc comment).  The `\s` class is modelled over ASCII whitespace and
  `toLowerCase` over ASCII letters; all analyzed inputs are ASCII.
* `crypto.randomUUID()` ids and `new Date()` timestamps are omitted from the
  embedded records: they are fresh opaque values on which no analyzed
  behaviour depends.  `FileHasher.hash` (SHA-256 hex digest of the content)
  is modelled abstractly as the content itself: the digest is only ever
  stored, never inspected.
* The mutable `Map<string, UnityAsset>` becomes an insertion-ordered
  association list with JavaScript `Map.set` semantics (replacing the value
  of an existing key keeps its position); methods that mutate `this` become
  functions from analyzer state to analyzer state.
* The recursive depth-first traversal in `calculateDependencyDepth` is given
  an explicit fuel parameter standing for the (unbounded) call stack;
  `none` models a computation that would not return.
-/

namespace UA

/-- ASCII fragment of the regex `\s` class (space, tab, newline, carriage
return, vertical tab, form feed). -/
def isWsChar (c : Char) : Bool :=
  c == ' ' || c == '\t' || c == '\n' || c == '\r' || c == Char.ofNat 11 || c == Char.ofNat 12

/-- The class `[a-f0-9]` under the `i` flag: hexadecimal digits of either case. -/
def isHexCh (c : Char) : Bool :=
  c.isDigit || ('a' ≤ c && c ≤ 'f') || ('A' ≤ c && c ≤ 'F')

/-- The regex `\w` class, `[A-Za-z0-9_]`. -/
def isWordCh (c : Char) : Bool := c.isAlphanum || c == '_'

/-- Consume the literal `pat` at the head of `cs` (case-sensitive) and return
the remainder, or `none` if `cs` does not start with `pat`. -/
def dropLit : List Char → List Char → Option (List Char)
  | [], cs => some cs
  | _ :: _, [] => none
  | p :: ps, c :: cs => if c == p then dropLit ps cs else none

/-- Case-insensitive variant of `dropLit`, embedding literals under the `i`
flag (ASCII case folding). -/
def dropLitCI : List Char → List Char → Option (List Char)
  | [], cs => some cs
  | _ :: _, [] => none
  | p :: ps, c :: cs => if c.toLower == p.toLower then dropLitCI ps cs else none

/-- First-match regex search: try the position matcher `f` at every start
position from left to right (including the end-of-text position) and return
the first success, like `String.prototype.match` without the `g` flag. -/
def findFirstMap {α : Type} (f : List Char → Option α) : List Char → Option α
  | [] => f []
  | c :: cs =>
    match f (c :: cs) with
    | some a => some a
    | none => findFirstMap f cs

/-- Global regex search (`g` flag): collect successive non-overlapping
matches, resuming after each match, like a `regex.exec` loop.  The matcher
returns the match value and the remainder after the match; every matcher used
in this file consumes at least one character on success, so fuel equal to the
text length is never exhausted. -/
def execAllAux {α : Type} (f : List Char → Option (α × List Char)) :
    Nat → List Char → List α
  | 0, _ => []
  | _ + 1, [] => []
  | fuel + 1, c :: cs =>
    match f (c :: cs) with
    | some (a, rest) => a :: execAllAux f fuel rest
    | none => execAllAux f fuel cs

/-- See `execAllAux`. -/
def execAll {α : Type} (f : List Char → Option (α × List Char)) (cs : List Char) : List α :=
  execAllAux f cs.length cs

/-- Like `execAll` but also records each match's start index
(`match.index`), needed by the backward attribute scans. -/
def execAllIdxAux {α : Type} (f : List Char → Option (α × List Char)) :
    Nat → Nat → List Char → List (Nat × α)
  | 0, _, _ => []
  | _ + 1, _, [] => []
  | fuel + 1, i, c :: cs =>
    match f (c :: cs) with
    | some (a, rest) => (i, a) :: execAllIdxAux f fuel (i + ((c :: cs).length - rest.length)) rest
    | none => execAllIdxAux f fuel (i + 1) cs

/-- See `execAllIdxAux`. -/
def execAllIdx {α : Type} (f : List Char → Option (α × List Char)) (cs : List Char) :
    List (Nat × α) :=
  execAllIdxAux f cs.length 0 cs

/-- `String.prototype.split` with a single-character separator: `splitOnCh
'.' "a.b"` is `["a", "b"]`, `splitOnCh '.' ""` is `[""]`. -/
def splitOnCh (sep : Char) : List Char → List (List Char)
  | [] => [[]]
  | c :: cs =>
    match splitOnCh sep cs with
    | g :: gs => if c == sep then [] :: g :: gs else (c :: g) :: gs
    | [] => [[c]]

/-- `Array.prototype.pop` of a `split` result, with `""` for the impossible
empty case: the last piece of the list. -/
def lastPart : List (List Char) → List Char :=
  List.foldl (fun _ x => x) []

/-- `String.prototype.replace` with a string pattern: replace only the first
occurrence of `pat` (here always with the empty string). -/
def replaceFirstEmpty (pat : List Char) : List Char → List Char
  | [] => []
  | c :: cs =>
    match dropLit pat (c :: cs) with
    | some r => r
    | none => c :: replaceFirstEmpty pat cs

/-- `String.prototype.trim` (ASCII fragment). -/
def trimChars (cs : List Char) : List Char :=
  ((cs.dropWhile isWsChar).reverse.dropWhile isWsChar).reverse

/-- `[...new Set(l)]`: deduplicate keeping the first occurrence of each
element, in order. -/
def dedupeKeepFirst : List String → List String
  | [] => []
  | x :: xs => x :: dedupeKeepFirst (xs.filter (fun y => !(y == x)))
termination_by l => l.length
decreasing_by
  simp only [List.length_cons]
  exact Nat.lt_succ_of_le (List.length_filter_le _ _)

/-- `parseInt` on a non-empty digit string (the capture of `\d+`). -/
def digitsToNat (cs : List Char) : Nat :=
  cs.foldl (fun a c => a * 10 + (c.toNat - 48)) 0

/-- Split on runs of whitespace, dropping empty pieces: `split(/\s+/)` on an
already trimmed string. -/
def splitWsRuns (cs : List Char) : List (List Char) :=
  ((splitOnCh ' ' (cs.map (fun c => if isWsChar c then ' ' else c))).filter
    (fun g => !g.isEmpty))

/-- `content.substring(max(0, pos - len), pos)`: the backward-scan window of
length at most `len` ending at position `pos`. -/
def windowBefore (cs : List Char) (pos len : Nat) : List Char :=
  (cs.take pos).drop (pos - len)

end UA

namespace UA.MetaFileParser

/-- Position matcher for `/guid:\s*([a-f0-9]+)/i`: the label `guid:`
(case-insensitive), optional whitespace, then a non-empty run of hex digits
(either case, captured with its original case). -/
def tryGuidAt (cs : List Char) : Option String := do
  let r1 ← UA.dropLitCI "guid:".data cs
  let r2 := r1.dropWhile UA.isWsChar
  let hex := r2.takeWhile UA.isHexCh
  if hex.isEmpty then none else some (String.mk hex)

/-- First match of `/guid:\s*([a-f0-9]+)/i` in `content`. -/
def findGuid (content : String) : Option String :=
  UA.findFirstMap tryGuidAt content.data

/-- Position matcher for `/fileFormatVersion:\s*(\d+)/` (case-sensitive). -/
def tryVersionAt (cs : List Char) : Option Nat := do
  let r1 ← UA.dropLit "fileFormatVersion:".data cs
  let r2 := r1.dropWhile UA.isWsChar
  let ds := r2.takeWhile Char.isDigit
  if ds.isEmpty then none else some (UA.digitsToNat ds)

/-- First match of `/fileFormatVersion:\s*(\d+)/` in `content`. -/
def findVersion (content : String) : Option Nat :=
  UA.findFirstMap tryVersionAt content.data

/-- Result record of `MetaFileParser.parse`. -/
structure MetaData where
  guid : String
  fileFormatVersion : Nat
deriving DecidableEq

/-- `MetaFileParser.parse`: `{guid, fileFormatVersion}` when a guid token is
found, `null` otherwise; the version defaults to `2` when its field is
absent.  The source wraps the body in `try/catch`, but neither `match` nor
`parseInt` can throw, so the catch branch is unreachable and the embedding is
a total function. -/
def parse (content : String) : Option MetaData :=
  match findGuid content with
  | some g => some ⟨g, (findVersion content).getD 2⟩
  | none => none

end UA.MetaFileParser

namespace UA.CSharpParser

/-- The fixed Unity lifecycle-message name set (`UNITY_MESSAGES`). -/
def UNITY_MESSAGES : List String :=
  ["Awake", "Start", "Update", "FixedUpdate", "LateUpdate",
   "OnEnable", "OnDisable", "OnDestroy", "OnApplicationQuit",
   "OnCollisionEnter", "OnCollisionExit", "OnTriggerEnter", "OnTriggerExit"]

/-- Position matcher for `/namespace\s+([\w.]+)/`: the literal, at least one
whitespace, then a non-empty run of word characters and dots. -/
def tryNamespaceAt (cs : List Char) : Option String := do
  let r1 ← UA.dropLit "namespace".data cs
  match r1 with
  | c :: _ =>
    if UA.isWsChar c then
      let r2 := r1.dropWhile UA.isWsChar
      let tok := r2.takeWhile (fun c => UA.isWordCh c || c == '.')
      if tok.isEmpty then none else some (String.mk tok)
    else none
  | [] => none

/-- `extractNamespace`: first match of `/namespace\s+([\w.]+)/`, or `''`. -/
def extractNamespace (content : String) : String :=
  (UA.findFirstMap tryNamespaceAt content.data).getD ""

/-- Tail of the class-name pattern after the optional access modifier:
`\s*class\s+(\w+)`. -/
def tryClassTail (cs : List Char) : Option String := do
  let r1 := cs.dropWhile UA.isWsChar
  let r2 ← UA.dropLit "class".data r1
  match r2 with
  | c :: _ =>
    if UA.isWsChar c then
      let r3 := r2.dropWhile UA.isWsChar
      let tok := r3.takeWhile UA.isWordCh
      if tok.isEmpty then none else some (String.mk tok)
    else none
  | [] => none

/-- Position matcher for `/(?:public|internal|private)?\s*class\s+(\w+)/`:
the modifier alternatives are mutually non-prefix, so at most one literal can
match at a position; on failure of its tail the engine backtracks to the
empty alternative. -/
def tryClassAt (cs : List Char) : Option String :=
  let withMod :=
    (["public", "internal", "private"].filterMap (fun m => UA.dropLit m.data cs)).findSome?
      tryClassTail
  match withMod with
  | some t => some t
  | none => tryClassTail cs

/-- `extractClassName`: first match of the class-name pattern, or `null`. -/
def extractClassName (content : String) : Option String :=
  UA.findFirstMap tryClassAt content.data

/-- Position matcher for `/class\s+\w+\s*:\s*([^{]+)/`.  The capture is the
greedy run of non-brace characters after the colon and any whitespace; when
that run is empty the engine backtracks `\s*` by one character and captures a
single whitespace character instead (the caller trims it away). -/
def tryBaseTypesAt (cs : List Char) : Option String := do
  let r1 ← UA.dropLit "class".data cs
  match r1 with
  | c0 :: _ =>
    if UA.isWsChar c0 then
      let r2 := r1.dropWhile UA.isWsChar
      let nm := r2.takeWhile UA.isWordCh
      if nm.isEmpty then none
      else
        let r3 := (r2.drop nm.length).dropWhile UA.isWsChar
        match r3 with
        | ':' :: r4 =>
          let k := (r4.takeWhile UA.isWsChar).length
          let cap := (r4.drop k).takeWhile (fun c => !(c == '{'))
          if !cap.isEmpty then some (String.mk cap)
          else if 0 < k then some (String.mk ((r4.drop (k - 1)).take 1))
          else none
        | _ => none
    else none
  | [] => none

/-- `extractBaseTypes`: the captured inheritance list split on commas,
trimmed, and filtered of empties; `[]` when the pattern has no match. -/
def extractBaseTypes (content : String) : List String :=
  match UA.findFirstMap tryBaseTypesAt content.data with
  | none => []
  | some cap =>
    ((UA.splitOnCh ',' cap.data).map (fun t => String.mk (UA.trimChars t))).filter
      (fun t => t.length > 0)

/-- The type token `(\w+(?:<[^>]+>)?)`: a word run with an optional generic
argument (itself a non-empty run of non-`>` characters).  When the optional
group fails the engine proceeds with the word run alone; the remainder then
starts with `<`, which makes every continuation of the patterns using this
token fail, so only one candidate needs to be produced. -/
def tryTypeTok (cs : List Char) : Option (String × List Char) :=
  let base := cs.takeWhile UA.isWordCh
  if base.isEmpty then none
  else
    let r := cs.drop base.length
    match r with
    | '<' :: r2 =>
      let inner := r2.takeWhile (fun c => !(c == '>'))
      if inner.isEmpty then some (String.mk base, r)
      else
        match r2.drop inner.length with
        | '>' :: r4 => some (String.mk (base ++ '<' :: (inner ++ ['>'])), r4)
        | _ => some (String.mk base, r)
    | _ => some (String.mk base, r)

/-- The alternatives of an optional modifier group `(?:m₁|m₂|…)?` at a
position: the matching literal's remainder (the listed literals are mutually
non-prefix, so at most one matches), then the empty alternative, in
backtracking order. -/
def modCandidates (mods : List String) (cs : List Char) : List (List Char) :=
  (mods.filterMap (fun m => UA.dropLit m.data cs)) ++ [cs]

/-- Mandatory tail of `methodRegex` after the modifier groups:
`(\w+(?:<[^>]+>)?)\s+(\w+)\s*\(([^)]*)\)`, returning (returnType, name,
parameter text) and the remainder after the closing parenthesis. -/
def tryMethodTail (cs : List Char) : Option ((String × String × String) × List Char) := do
  let (ty, r1) ← tryTypeTok cs
  match r1 with
  | c :: _ =>
    if UA.isWsChar c then
      let r2 := r1.dropWhile UA.isWsChar
      let nm := r2.takeWhile UA.isWordCh
      if nm.isEmpty then none
      else
        let r3 := (r2.drop nm.length).dropWhile UA.isWsChar
        match r3 with
        | '(' :: r4 =>
          let ps := r4.takeWhile (fun c => !(c == ')'))
          match r4.drop ps.length with
          | ')' :: r5 => some ((ty, String.mk nm, String.mk ps), r5)
          | _ => none
        | _ => none
    else none
  | [] => none

/-- Position matcher for the whole `methodRegex`
`/(?:public|private|protected|internal)?\s*(?:static)?\s*(?:virtual|override|async)?\s*(\w+(?:<[^>]+>)?)\s+(\w+)\s*\(([^)]*)\)/g`. -/
def tryMethodAt (cs : List Char) : Option ((String × String × String) × List Char) :=
  (modCandidates ["public", "private", "protected", "internal"] cs).findSome? fun r1 =>
    (modCandidates ["static"] (r1.dropWhile UA.isWsChar)).findSome? fun r2 =>
      (modCandidates ["virtual", "override", "async"] (r2.dropWhile UA.isWsChar)).findSome?
        fun r3 => tryMethodTail (r3.dropWhile UA.isWsChar)

/-- Mandatory tail of `fieldRegex`: `(\w+(?:<[^>]+>)?)\s+(\w+)\s*[;=]`. -/
def tryFieldTail (cs : List Char) : Option ((String × String) × List Char) := do
  let (ty, r1) ← tryTypeTok cs
  match r1 with
  | c :: _ =>
    if UA.isWsChar c then
      let r2 := r1.dropWhile UA.isWsChar
      let nm := r2.takeWhile UA.isWordCh
      if nm.isEmpty then none
      else
        match (r2.drop nm.length).dropWhile UA.isWsChar with
        | ';' :: r4 => some ((ty, String.mk nm), r4)
        | '=' :: r4 => some ((ty, String.mk nm), r4)
        | _ => none
    else none
  | [] => none

/-- Position matcher for the whole `fieldRegex`
`/(?:public|private|protected|internal)?\s*(?:static|readonly)?\s*(\w+(?:<[^>]+>)?)\s+(\w+)\s*[;=]/g`. -/
def tryFieldAt (cs : List Char) : Option ((String × String) × List Char) :=
  (modCandidates ["public", "private", "protected", "internal"] cs).findSome? fun r1 =>
    (modCandidates ["static", "readonly"] (r1.dropWhile UA.isWsChar)).findSome? fun r2 =>
      tryFieldTail (r2.dropWhile UA.isWsChar)

/-- Position matcher for the attribute pattern `/\[(\w+)(?:\([^)]*\))?\]/g`,
returning the full matched text.  When the optional argument group matches
but no `]` follows, the engine backtracks to the group-less alternative,
which then fails at the `(`; both fallbacks are spelled out. -/
def tryAttrAt (cs : List Char) : Option (List Char × List Char) :=
  match cs with
  | '[' :: r1 =>
    let nm := r1.takeWhile UA.isWordCh
    if nm.isEmpty then none
    else
      let r2 := r1.drop nm.length
      let noArgs : Option (List Char × List Char) :=
        match r2 with
        | ']' :: r5 => some ('[' :: (nm ++ [']']), r5)
        | _ => none
      match r2 with
      | '(' :: r3 =>
        let inner := r3.takeWhile (fun c => !(c == ')'))
        match r3.drop inner.length with
        | ')' :: r4 =>
          match r4 with
          | ']' :: r5 => some ('[' :: (nm ++ '(' :: (inner ++ [')', ']'])), r5)
          | _ => noArgs
        | _ => noArgs
      | _ => noArgs
  | _ => none

/-- `m.replace(/[\[\]]/g, '').split('(')[0]`: strip every bracket from a
matched attribute text and keep what precedes the first parenthesis. -/
def attrName (m : List Char) : String :=
  String.mk ((m.filter (fun c => !(c == '[') && !(c == ']'))).takeWhile (fun c => !(c == '(')))

/-- `extractMethodAttributes`: all attribute matches in the 200-character
window before `position`, reduced to their names. -/
def extractMethodAttributes (cs : List Char) (position : Nat) : List String :=
  (UA.execAll tryAttrAt (UA.windowBefore cs position 200)).map attrName

/-- `extractFieldAttributes`: the same scan over a 100-character window. -/
def extractFieldAttributes (cs : List Char) (position : Nat) : List String :=
  (UA.execAll tryAttrAt (UA.windowBefore cs position 100)).map attrName

/-- One parsed method (`CSharpMethod`); parameters are (type, name) pairs. -/
structure CSharpMethod where
  name : String
  returnType : String
  parameters : List (String × String)
  attributes : List String
  isUnityMessage : Bool
deriving DecidableEq

/-- Parameter splitting of a method match: split the parenthesized text on
commas, keep the pieces with non-whitespace content, and take each piece's
first whitespace-delimited token as the type and the second (or `''`) as the
name. -/
def splitParams (ps : String) : List (String × String) :=
  ((UA.splitOnCh ',' ps.data).filter (fun p => (UA.trimChars p).length > 0)).map fun p =>
    let toks := UA.splitWsRuns (UA.trimChars p)
    (String.mk (toks.headD []), String.mk ((toks.drop 1).headD []))

/-- `extractMethods`: every `methodRegex` match, with attributes read from
the backward window at the match index. -/
def extractMethods (content : String) : List CSharpMethod :=
  (UA.execAllIdx tryMethodAt content.data).map fun m =>
    let idx := m.1
    let ty := m.2.1
    let nm := m.2.2.1
    let ps := m.2.2.2
    { name := nm
      returnType := ty
      parameters := splitParams ps
      attributes := extractMethodAttributes content.data idx
      isUnityMessage := UNITY_MESSAGES.contains nm }

/-- One parsed field (`CSharpField`); the source field `type` is spelled
`ftype` because `type` is a Lean keyword. -/
structure CSharpField where
  name : String
  ftype : String
  attributes : List String
  isSerializedField : Bool
deriving DecidableEq

/-- `extractFields`: every `fieldRegex` match, with attributes read from the
100-character backward window. -/
def extractFields (content : String) : List CSharpField :=
  (UA.execAllIdx tryFieldAt content.data).map fun m =>
    let idx := m.1
    let ty := m.2.1
    let nm := m.2.2
    let attrs := extractFieldAttributes content.data idx
    { name := nm
      ftype := ty
      attributes := attrs
      isSerializedField := attrs.contains "SerializeField" }

/-- Position matcher for `/GetComponent<(\w+)>/g` (and its `AddComponent`
sibling): a literal, a captured word run, and the closing angle bracket. -/
def tryGenericCallAt (lit : String) (cs : List Char) : Option (String × List Char) := do
  let r1 ← UA.dropLit lit.data cs
  let nm := r1.takeWhile UA.isWordCh
  if nm.isEmpty then none
  else
    match r1.drop nm.length with
    | '>' :: r2 => some (String.mk nm, r2)
    | _ => none

/-- Position matcher for `/RequireComponent\(typeof\((\w+)\)\)/g`. -/
def tryRequireAt (cs : List Char) : Option (String × List Char) := do
  let r1 ← UA.dropLit "RequireComponent(typeof(".data cs
  let nm := r1.takeWhile UA.isWordCh
  if nm.isEmpty then none
  else
    match r1.drop nm.length with
    | ')' :: ')' :: r2 => some (String.mk nm, r2)
    | _ => none

/-- `extractComponentUsages`: collect the captures of the three patterns in
pattern order, then deduplicate keeping first occurrences
(`[...new Set(usages)]`). -/
def extractComponentUsages (content : String) : List String :=
  UA.dedupeKeepFirst
    (UA.execAll (tryGenericCallAt "GetComponent<") content.data ++
     UA.execAll (tryGenericCallAt "AddComponent<") content.data ++
     UA.execAll tryRequireAt content.data)

/-- The structural record returned by `CSharpParser.parse`; ids and
timestamps are omitted (see the file header) and `namespace` is spelled
`namespaceName` because `namespace` is a Lean keyword. -/
structure ScriptData where
  namespaceName : String
  class_name : String
  base_types : List String
  methods : List CSharpMethod
  fields : List CSharpField
  unity_messages : List String
  component_usages : List String
deriving DecidableEq

/-- `CSharpParser.parse`: assemble the extractors' results;
`class_name` is the extracted name or `''` (`className || ''`).  The
`try/catch` of the source is unreachable — no extractor throws — so the
function never returns `null`; the `Option` return type mirrors the source
signature. -/
def parse (content : String) (_filePath : String) : Option ScriptData :=
  let methods := extractMethods content
  some
    { namespaceName := extractNamespace content
      class_name := (extractClassName content).getD ""
      base_types := extractBaseTypes content
      methods := methods
      fields := extractFields content
      unity_messages := (methods.filter (fun m => UNITY_MESSAGES.contains m.name)).map (·.name)
      component_usages := extractComponentUsages content }

end UA.CSharpParser

namespace UA

/-- One component entry of a game object (`{type, guid?, fileID}`); the
source field `type` is spelled `ctype` because `type` is a Lean keyword. -/
structure GoComponent where
  ctype : String
  guid : Option String
  fileID : String
deriving DecidableEq

/-- A parsed game object (`UnityGameObject`), with nested children. -/
inductive UnityGameObject where
  | mk (name : String) (fileID : String) (components : List GoComponent)
       (children : List UnityGameObject)

/-- Game-object name. -/
def UnityGameObject.name : UnityGameObject → String
  | .mk n _ _ _ => n

/-- Game-object document-local id. -/
def UnityGameObject.fileID : UnityGameObject → String
  | .mk _ f _ _ => f

/-- Game-object component list. -/
def UnityGameObject.components : UnityGameObject → List GoComponent
  | .mk _ _ cs _ => cs

/-- Game-object children. -/
def UnityGameObject.children : UnityGameObject → List UnityGameObject
  | .mk _ _ _ ch => ch

end UA

namespace UA.UnityYAMLParser

open UA

/-- Position matcher for the game-object pattern
(the `g`-flagged regex `---\s*!u!\d+\s*&(\d+)\s*GameObject:\s*m_Name:\s*(\w+)`), returning the
captured fileID and name with the remainder. -/
def tryGameObjectAt (cs : List Char) : Option (UnityGameObject × List Char) := do
  let r1 ← UA.dropLit "---".data cs
  let r2 := r1.dropWhile UA.isWsChar
  let r3 ← UA.dropLit "!u!".data r2
  let ds := r3.takeWhile Char.isDigit
  if ds.isEmpty then none
  else
    match (r3.drop ds.length).dropWhile UA.isWsChar with
    | '&' :: r4 =>
      let fid := r4.takeWhile Char.isDigit
      if fid.isEmpty then none
      else do
        let r5 := (r4.drop fid.length).dropWhile UA.isWsChar
        let r6 ← UA.dropLit "GameObject:".data r5
        let r7 := r6.dropWhile UA.isWsChar
        let r8 ← UA.dropLit "m_Name:".data r7
        let r9 := r8.dropWhile UA.isWsChar
        let nm := r9.takeWhile UA.isWordCh
        if nm.isEmpty then none
        else
          some (.mk (String.mk nm) (String.mk fid) [] [], r9.drop nm.length)
    | _ => none

/-- `extractGameObjects`: every match of the game-object pattern; components
and children are left empty by this pass. -/
def extractGameObjects (content : String) : List UnityGameObject :=
  UA.execAll tryGameObjectAt content.data

/-- The lazy middle of `/m_Script:.*?guid:\s*([a-f0-9]+)/gi` after its label:
expand `.*?` one non-newline character at a time, at each offset trying
`guid:\s*([a-f0-9]+)` (case-insensitive; the whitespace after the label may
cross newlines, the dot may not). -/
def seekGuidSameLine : List Char → Option (String × List Char)
  | [] => none
  | c :: cs =>
    match UA.MetaFileParser.tryGuidAt (c :: cs) with
    | some g => some (g, (c :: cs).drop (("guid:".data.length : Nat) +
        (((UA.dropLitCI "guid:".data (c :: cs)).getD []).takeWhile UA.isWsChar).length +
        g.length))
    | none => if c == '\n' then none else seekGuidSameLine cs

/-- Position matcher for `/m_Script:.*?guid:\s*([a-f0-9]+)/gi` (and, with the
other label, `/m_PrefabAsset:.*?guid:\s*([a-f0-9]+)/gi`). -/
def tryRefAt (label : String) (cs : List Char) : Option (String × List Char) := do
  let r1 ← UA.dropLitCI label.data cs
  seekGuidSameLine r1

/-- `extractScriptReferences`: deduplicated captures of the `m_Script`
pattern. -/
def extractScriptReferences (content : String) : List String :=
  UA.dedupeKeepFirst (UA.execAll (tryRefAt "m_Script:") content.data)

/-- `extractPrefabReferences`: deduplicated captures of the `m_PrefabAsset`
pattern. -/
def extractPrefabReferences (content : String) : List String :=
  UA.dedupeKeepFirst (UA.execAll (tryRefAt "m_PrefabAsset:") content.data)

/-- What `UnityYAMLParser.parseScene` returns (scene name is set by the
caller; ids and timestamps omitted). -/
structure SceneData where
  scene_name : String
  game_objects : List UnityGameObject
  script_references : List String
  prefab_references : List String

/-- `UnityYAMLParser.parseScene`.  The `try/catch` is unreachable — no
extractor throws — so the embedding always returns `some`; the `Option`
return type mirrors the source signature. -/
def parseScene (content : String) : Option SceneData :=
  some
    { scene_name := ""
      game_objects := extractGameObjects content
      script_references := extractScriptReferences content
      prefab_references := extractPrefabReferences content }

/-- What `UnityYAMLParser.parsePrefab` returns. -/
structure PrefabData where
  prefab_name : String
  root_object : UnityGameObject
  components : List GoComponent
  script_references : List String
  nested_prefab_references : List String

/-- `UnityYAMLParser.parsePrefab`: the root object is the first discovered
game object, or the synthetic placeholder `{name: 'Root', fileID: '0', no
components, no children}` when none is found; `components` mirrors the root
object's list.  As with `parseScene`, the catch branch is unreachable. -/
def parsePrefab (content : String) : Option PrefabData :=
  let gameObjects := extractGameObjects content
  let rootObject : UnityGameObject := gameObjects.headD (.mk "Root" "0" [] [])
  some
    { prefab_name := rootObject.name
      root_object := rootObject
      components := rootObject.components
      script_references := extractScriptReferences content
      nested_prefab_references := extractPrefabReferences content }

end UA.UnityYAMLParser

namespace UA

/-- `FileHasher.hash`, modelled abstractly (see the file header): the digest
is a function of the content that is only stored, never inspected. -/
def FileHasher.hash (content : String) : String := content

/-- The closed asset-type enumeration (`UnityAsset['asset_type']`). -/
inductive UnityAssetType where
  | cs_script | scene | prefab | meta | shader | material | texture | other
deriving DecidableEq

/-- The dependency-type enumeration (`AssetDependency['dependency_type']`). -/
inductive DependencyType where
  | script_usage | prefab_instance | scene_reference | material_reference | texture_reference
deriving DecidableEq

/-- A registered asset (`UnityAsset`): ids and timestamps omitted;
`parse_metadata` holds only the meta file-format version. -/
structure UnityAsset where
  project_id : String
  asset_path : String
  asset_type : UnityAssetType
  guid : String
  file_hash : String
  fileFormatVersion : Nat
deriving DecidableEq

/-- One directed dependency edge (`AssetDependency`); ids, project id and
free-form metadata omitted. -/
structure AssetDependency where
  source_guid : String
  target_guid : String
  dependency_type : DependencyType
deriving DecidableEq

/-- JavaScript `Map.get`: the value of the (unique) entry with the key. -/
def assocGet {α : Type} (m : List (String × α)) (k : String) : Option α :=
  (m.find? (fun p => p.1 == k)).map (·.2)

/-- JavaScript `Map.set`: replace the value of an existing key in place
(keeping its position), else append a new entry. -/
def assocSet {α : Type} (m : List (String × α)) (k : String) (v : α) : List (String × α) :=
  if m.any (fun p => p.1 == k) then m.map (fun p => if p.1 == k then (k, v) else p)
  else m ++ [(k, v)]

end UA

namespace UA.UnityProjectAnalyzer

open UA

/-- The assembled project structure (`UnityProjectStructure`). -/
structure UnityProjectStructure where
  assets : List UnityAsset
  scripts : List CSharpParser.ScriptData
  scenes : List UnityYAMLParser.SceneData
  prefabs : List UnityYAMLParser.PrefabData
  dependencies : List AssetDependency

/-- Analyzer instance state: the constructor arguments plus the mutable
`guidToAssetMap` (insertion-ordered, keyed by guid). -/
structure AnalyzerState where
  projectPath : String
  projectId : String
  guidToAssetMap : List (String × UnityAsset)
deriving DecidableEq

/-- A fresh analyzer (`new UnityProjectAnalyzer(projectPath, projectId)`). -/
def initState (projectPath projectId : String) : AnalyzerState :=
  ⟨projectPath, projectId, []⟩

/-- `filePath.split('.').pop()?.toLowerCase()`: the extension used for
dispatch (for a dotless name this is the whole name). -/
def extOf (filePath : String) : String :=
  String.mk ((UA.lastPart (UA.splitOnCh '.' filePath.data)).map Char.toLower)

/-- `filePath.split('/').pop() || ''`: the last path segment. -/
def lastSegment (path : String) : String :=
  String.mk (UA.lastPart (UA.splitOnCh '/' path.data))

/-- Asset-type classification by extension in `parseMeta`. -/
def classifyExt (ext : String) : UnityAssetType :=
  if ext == "cs" then .cs_script
  else if ext == "unity" then .scene
  else if ext == "prefab" then .prefab
  else if ext == "shader" then .shader
  else if ext == "mat" then .material
  else if ["png", "jpg", "jpeg", "tga"].contains ext then .texture
  else .other

/-- The asset record built by `parseMeta` for a sidecar file (ids and
timestamps omitted, see the file header). -/
def buildAsset (projectId filePath content : String) (md : MetaFileParser.MetaData) :
    UnityAsset :=
  let assetPath := String.mk (UA.replaceFirstEmpty ".meta".data filePath.data)
  { project_id := projectId
    asset_path := assetPath
    asset_type := classifyExt (extOf assetPath)
    guid := md.guid
    file_hash := FileHasher.hash content
    fileFormatVersion := md.fileFormatVersion }

/-- `parseMeta`: register the sidecar's asset under its guid
(`guidToAssetMap.set`); an unparsable meta file registers nothing. -/
def parseMeta (s : AnalyzerState) (filePath content : String) : AnalyzerState :=
  match MetaFileParser.parse content with
  | none => s
  | some md =>
    { s with guidToAssetMap :=
        assocSet s.guidToAssetMap md.guid (buildAsset s.projectId filePath content md) }

/-- `findAssetByPath`: scan the registry's values in insertion order for the
first asset with the given path. -/
def findAssetByPath (s : AnalyzerState) (path : String) : Option UnityAsset :=
  (s.guidToAssetMap.find? (fun p => p.2.asset_path == path)).map (·.2)

/-- `parseScript`: parse the C# text and attach it to the registered asset
for the path; the returned state is the input state — this method reads but
never writes `this`.  The asset-id back-reference is omitted with the ids. -/
def parseScript (s : AnalyzerState) (filePath content : String) :
    AnalyzerState × Option CSharpParser.ScriptData :=
  match CSharpParser.parse content filePath with
  | none => (s, none)
  | some scriptData =>
    match findAssetByPath s filePath with
    | none => (s, none)
    | some _asset => (s, some scriptData)

/-- `sceneName` computation of `parseScene`:
`filePath.split('/').pop()?.replace('.unity', '') || 'Scene'`. -/
def sceneNameOf (filePath : String) : String :=
  let n := String.mk (UA.replaceFirstEmpty ".unity".data (UA.lastPart (UA.splitOnCh '/' filePath.data)))
  if n == "" then "Scene" else n

/-- `parseScene`: parse the scene text, attach it to the registered asset,
and override the scene name with the file-derived one; state is returned
unchanged. -/
def parseScene (s : AnalyzerState) (filePath content : String) :
    AnalyzerState × Option UnityYAMLParser.SceneData :=
  match UnityYAMLParser.parseScene content with
  | none => (s, none)
  | some sceneData =>
    match findAssetByPath s filePath with
    | none => (s, none)
    | some _asset =>
      (s, some { sceneData with scene_name := sceneNameOf filePath })

/-- `prefabName` computation of `parsePrefab`:
`filePath.split('/').pop()?.replace('.prefab', '') || 'Prefab'`. -/
def prefabNameOf (filePath : String) : String :=
  let n := String.mk (UA.replaceFirstEmpty ".prefab".data (UA.lastPart (UA.splitOnCh '/' filePath.data)))
  if n == "" then "Prefab" else n

/-- `parsePrefab`: parse the prefab text and attach it to the registered
asset.  The source's `prefabData.root_object || {name: prefabName, fileID:
'0', components: [], children: []}` fallback is elided: the parser always
supplies a root object, so the `||` keeps the left operand (the fallback is
dead code — see the C4 theorems).  State is returned unchanged. -/
def parsePrefab (s : AnalyzerState) (filePath content : String) :
    AnalyzerState × Option UnityYAMLParser.PrefabData :=
  match UnityYAMLParser.parsePrefab content with
  | none => (s, none)
  | some prefabData =>
    match findAssetByPath s filePath with
    | none => (s, none)
    | some _asset =>
      (s, some { prefabData with prefab_name := prefabNameOf filePath })

/-- `parseFile`: dispatch on the lower-cased extension; unknown extensions
fall through the `switch` without effect.  The source discards the
sub-parsers' return values; the embedding returns the (possibly updated)
state. -/
def parseFile (s : AnalyzerState) (filePath content : String) : AnalyzerState :=
  let ext := extOf filePath
  if ext == "meta" then parseMeta s filePath content
  else if ext == "cs" then (parseScript s filePath content).1
  else if ext == "unity" then (parseScene s filePath content).1
  else if ext == "prefab" then (parsePrefab s filePath content).1
  else s

/-- A sequence of `parseFile` calls on one analyzer instance. -/
def runParseFiles (s : AnalyzerState) (files : List (String × String)) : AnalyzerState :=
  files.foldl (fun s pc => parseFile s pc.1 pc.2) s

/-- `analyzeProject`: the source allocates five empty collections and
returns them unchanged — nothing is ever assembled into the structure. -/
def analyzeProject (_s : AnalyzerState) : UnityProjectStructure :=
  { assets := [], scripts := [], scenes := [], prefabs := [], dependencies := [] }

/-- A dependency-graph node (one per asset). -/
structure GraphNode where
  guid : String
  name : String
  ntype : UnityAssetType
  path : String
deriving DecidableEq

/-- A dependency-graph edge (one per dependency record); the source field
`type` is spelled `etype`. -/
structure GraphEdge where
  source : String
  target : String
  etype : DependencyType
deriving DecidableEq

/-- The derived graph view (`DependencyGraph`). -/
structure DependencyGraph where
  nodes : List GraphNode
  edges : List GraphEdge
deriving DecidableEq

/-- `buildDependencyGraph`: one node per asset, one edge per dependency
record (no referential-integrity check). -/
def buildDependencyGraph (structure_ : UnityProjectStructure) : DependencyGraph :=
  { nodes := structure_.assets.map fun asset =>
      { guid := asset.guid
        name := lastSegment asset.asset_path
        ntype := asset.asset_type
        path := asset.asset_path }
    edges := structure_.dependencies.map fun dep =>
      { source := dep.source_guid
        target := dep.target_guid
        etype := dep.dependency_type } }

end UA.UnityProjectAnalyzer

namespace UA.UnityProjectAnalyzer

open UA

/-- Category chosen for a script by `generateProjectSummary`:
`base_types.includes('MonoBehaviour')` is JavaScript array membership —
exact element equality, not substring search. -/
def scriptCategory (script : CSharpParser.ScriptData) : String :=
  if script.base_types.contains "MonoBehaviour" then "MonoBehaviour"
  else if script.base_types.contains "ScriptableObject" then "ScriptableObject"
  else "Other"

/-- `m[k] = (m[k] || 0) + 1` on a string-keyed record / `Map`. -/
def bumpCount (m : List (String × Nat)) (k : String) : List (String × Nat) :=
  assocSet m k ((assocGet m k).getD 0 + 1)

/-- The `scriptCategories` histogram: a fold over the scripts in order. -/
def scriptCategories (structure_ : UnityProjectStructure) : List (String × Nat) :=
  structure_.scripts.foldl (fun m script => bumpCount m (scriptCategory script)) []

/-- The `referenceCounts` map: inbound-edge counts per target guid, keyed in
first-occurrence order. -/
def referenceCounts (structure_ : UnityProjectStructure) : List (String × Nat) :=
  structure_.dependencies.foldl (fun m dep => bumpCount m dep.target_guid) []

/-- Stable insertion of an entry into a count-descending list: the entry goes
after every earlier entry whose count is at least as large, exactly where the
ECMAScript stable `sort((a, b) => b[1] - a[1])` leaves it. -/
def insertByCountDesc (x : String × Nat) : List (String × Nat) → List (String × Nat)
  | [] => [x]
  | y :: ys => if y.2 < x.2 then x :: y :: ys else y :: insertByCountDesc x ys

/-- Stable descending sort by count (the unique result any stable sort
consistent with the comparator produces). -/
def sortByCountDesc (l : List (String × Nat)) : List (String × Nat) :=
  l.foldl (fun acc x => insertByCountDesc x acc) []

/-- One ranked entry of `mostReferencedAssets`. -/
structure RefEntry where
  guid : String
  name : String
  reference_count : Nat
deriving DecidableEq

/-- `mostReferencedAssets`: sort the reference counts descending (stable),
take the top 10, and resolve each display name from the matching asset —
`asset?.asset_path.split('/').pop() || 'Unknown'` falls back to `'Unknown'`
both when no asset matches and when the last path segment is empty. -/
def mostReferencedAssets (structure_ : UnityProjectStructure) : List RefEntry :=
  ((sortByCountDesc (referenceCounts structure_)).take 10).map fun p =>
    { guid := p.1
      name :=
        match structure_.assets.find? (fun a => a.guid == p.1) with
        | some asset =>
          let n := lastSegment asset.asset_path
          if n == "" then "Unknown" else n
        | none => "Unknown"
      reference_count := p.2 }

/-- Shared state of the source's recursive `dfs` closure: the (globally
grown) visited set and the running maximum depth. -/
structure DfsState where
  visited : List String
  maxDepth : Nat
deriving DecidableEq

/-- `structure.dependencies.filter(d => d.source_guid === guid)`. -/
def depsFrom (deps : List AssetDependency) (guid : String) : List AssetDependency :=
  deps.filter (fun d => d.source_guid == guid)

/-- The recursive `dfs(guid, depth)` of `calculateDependencyDepth`, with
explicit fuel standing for the (unbounded) call stack: an already-visited
guid returns immediately; otherwise the guid is marked visited, the maximum
depth is updated, and the `deps.forEach(dep => dfs(dep.target_guid, depth +
1))` loop is a state-threading fold over the outgoing dependencies.
Exhausted fuel (`none`) aborts the whole computation, modelling a recursion
that would not return within that stack bound. -/
def dfs (deps : List AssetDependency) : Nat → String → Nat → DfsState → Option DfsState
  | 0, _, _, _ => none
  | fuel + 1, guid, depth, s =>
    if guid ∈ s.visited then some s
    else
      (depsFrom deps guid).foldl
        (fun acc d =>
          match acc with
          | some s2 => dfs deps fuel d.target_guid (depth + 1) s2
          | none => none)
        (some ⟨guid :: s.visited, max s.maxDepth depth⟩)

/-- The `structure.assets.forEach` loop of `calculateDependencyDepth`:
start a traversal at every asset guid not yet visited. -/
def depthLoop (deps : List AssetDependency) (fuel : Nat) :
    List UnityAsset → DfsState → Option DfsState
  | [], s => some s
  | a :: rest, s =>
    if a.guid ∈ s.visited then depthLoop deps fuel rest s
    else
      match dfs deps fuel a.guid 0 s with
      | some s2 => depthLoop deps fuel rest s2
      | none => none

/-- Stack-depth budget sufficient for any traversal of the structure: every
guid ever visited is an asset guid or a dependency target, and each nesting
level past the first marks a fresh one visited. -/
def fuelBound (structure_ : UnityProjectStructure) : Nat :=
  structure_.assets.length + structure_.dependencies.length + 1

/-- `calculateDependencyDepth`: the maximum depth reached over all
traversals; `none` would mean the source's unbounded recursion does not
return within any stack bound (proved impossible below). -/
def calculateDependencyDepth (structure_ : UnityProjectStructure) : Option Nat :=
  (depthLoop structure_.dependencies (fuelBound structure_) structure_.assets ⟨[], 0⟩).map
    (·.maxDepth)

/-- The derived aggregate (`ProjectSummary`). -/
structure ProjectSummary where
  total_scripts : Nat
  total_scenes : Nat
  total_prefabs : Nat
  total_assets : Nat
  script_categories : List (String × Nat)
  most_referenced_assets : List RefEntry
  dependency_depth : Option Nat
deriving DecidableEq

/-- `generateProjectSummary`. -/
def generateProjectSummary (structure_ : UnityProjectStructure) : ProjectSummary :=
  { total_scripts := structure_.scripts.length
    total_scenes := structure_.scenes.length
    total_prefabs := structure_.prefabs.length
    total_assets := structure_.assets.length
    script_categories := scriptCategories structure_
    most_referenced_assets := mostReferencedAssets structure_
    dependency_depth := calculateDependencyDepth structure_ }

end UA.UnityProjectAnalyzer

namespace UA

open UnityProjectAnalyzer

/-- The script text of the end-to-end scenario in section 8 of the spec. -/
def playerControllerCs : String :=
  "using UnityEngine;\n\npublic class PlayerController : MonoBehaviour\n\x7b\n    [SerializeField] float moveSpeed;\n\n    void Update()\n    \x7b\n    \x7d\n\x7d\n"

/-- The scene text of the end-to-end scenario. -/
def level1Unity : String :=
  "--- !u!1 &100\nGameObject:\n  m_Name: Player\n  m_Script: \x7bfileID: 11500000, guid: abc123, type: 3\x7d\n"

/-- Meta sidecar of the script (guid `abc123`). -/
def playerControllerMeta : String := "fileFormatVersion: 2\nguid: abc123\n"

/-- Meta sidecar of the scene (guid `def456`). -/
def level1UnityMeta : String := "fileFormatVersion: 2\nguid: def456\n"

/-- The analyzer state after `parseFile` has run on all four scenario files. -/
def c1Run : AnalyzerState :=
  runParseFiles (initState "Assets" "proj1")
    [("PlayerController.cs.meta", playerControllerMeta),
     ("PlayerController.cs", playerControllerCs),
     ("Level1.unity.meta", level1UnityMeta),
     ("Level1.unity", level1Unity)]

/-- A two-asset structure whose dependency records form the cycle
`aa → bb → aa` (the cyclic shape named by the spec's traversal warning). -/
def cyclicStructure : UnityProjectStructure :=
  { assets :=
      [{ project_id := "p", asset_path := "A.prefab", asset_type := .prefab, guid := "aa",
         file_hash := "", fileFormatVersion := 2 },
       { project_id := "p", asset_path := "B.prefab", asset_type := .prefab, guid := "bb",
         file_hash := "", fileFormatVersion := 2 }]
    scripts := []
    scenes := []
    prefabs := []
    dependencies :=
      [⟨"aa", "bb", .prefab_instance⟩, ⟨"bb", "aa", .prefab_instance⟩] }

/-- A script record whose only base type is the qualified
`UnityEngine.MonoBehaviour` (containing, but not equal to,
`"MonoBehaviour"`). -/
def qualScript : CSharpParser.ScriptData :=
  { namespaceName := "", class_name := "Foo", base_types := ["UnityEngine.MonoBehaviour"],
    methods := [], fields := [], unity_messages := [], component_usages := [] }

/-- A structure containing only `qualScript`. -/
def qualStructure : UnityProjectStructure :=
  { assets := [], scripts := [qualScript], scenes := [], prefabs := [], dependencies := [] }

/-- A dependency edge targeting `t` (for the ranking example). -/
def edgeTo (t : String) : AssetDependency := ⟨"src", t, .script_usage⟩

/-- The ranking example of section 8: asset `a` targeted by 5 edges, `b` by
2, `c` by 0. -/
def rankStructure : UnityProjectStructure :=
  { assets :=
      [{ project_id := "p", asset_path := "x/A.cs", asset_type := .cs_script, guid := "a",
         file_hash := "", fileFormatVersion := 2 },
       { project_id := "p", asset_path := "x/B.cs", asset_type := .cs_script, guid := "b",
         file_hash := "", fileFormatVersion := 2 },
       { project_id := "p", asset_path := "x/C.cs", asset_type := .cs_script, guid := "c",
         file_hash := "", fileFormatVersion := 2 }]
    scripts := []
    scenes := []
    prefabs := []
    dependencies :=
      [edgeTo "b", edgeTo "a", edgeTo "a", edgeTo "b", edgeTo "a", edgeTo "a", edgeTo "a"] }

/-- Analyzer state holding one registered prefab asset at
`Assets/Enemy.prefab`. -/
def enemyPrefabState : AnalyzerState :=
  parseMeta (initState "P" "pid") "Assets/Enemy.prefab.meta" "guid: ff00aa"

/-- A one-asset structure with a dependency edge whose target guid `zz`
matches no asset (a dangling edge). -/
def danglingStructure : UnityProjectStructure :=
  { assets :=
      [{ project_id := "p", asset_path := "x/A.cs", asset_type := .cs_script, guid := "aa",
         file_hash := "", fileFormatVersion := 2 }]
    scripts := []
    scenes := []
    prefabs := []
    dependencies := [⟨"aa", "zz", .script_usage⟩] }

end UA

namespace UA

/-- Number of guids of the universe `U` not yet visited: the termination
measure of the depth-first traversal. -/
def nFresh (U visited : List String) : Nat :=
  (U.filter (fun g => !(visited.contains g))).length

/-- The guid universe of a structure: every guid the traversal can ever be
started on or recurse into. -/
def guidUniverse (structure_ : UnityProjectAnalyzer.UnityProjectStructure) : List String :=
  structure_.assets.map (·.guid) ++ structure_.dependencies.map (·.target_guid)

end UA

namespace UA

theorem assocGet_nil {α : Type} (k : String) : assocGet ([] : List (String × α)) k = none := rfl

theorem assocGet_cons {α : Type} (q : String × α) (rest : List (String × α)) (k : String) :
    assocGet (q :: rest) k = if q.1 == k then some q.2 else assocGet rest k := by
  cases hq : q.1 == k <;> simp [assocGet, List.find?, hq]

theorem assocGet_assocSet_self {α : Type} (m : List (String × α)) (k : String) (v : α) :
    assocGet (assocSet m k v) k = some v := by
  unfold assocSet
  cases h : m.any (fun p => p.1 == k) <;> simp only [Bool.false_eq_true, if_false, if_true]
  · induction m with
    | nil => simp [assocGet_cons]
    | cons q rest ih =>
      simp only [List.any_cons, Bool.or_eq_false_iff] at h
      rw [List.cons_append, assocGet_cons, if_neg (by simp [h.1]), ih h.2]
  · induction m with
    | nil => simp at h
    | cons q rest ih =>
      simp only [List.map_cons]
      by_cases hq : q.1 = k
      · simp [assocGet_cons, hq]
      · rw [if_neg (by simp [hq]), assocGet_cons, if_neg (by simp [hq])]
        exact ih (by simpa [hq] using h)

theorem assocGet_assocSet_ne {α : Type} (m : List (String × α)) (k k' : String) (v : α)
    (hne : ¬(k' = k)) : assocGet (assocSet m k v) k' = assocGet m k' := by
  unfold assocSet
  cases h : m.any (fun p => p.1 == k) <;> simp only [Bool.false_eq_true, if_false, if_true]
  · clear h
    induction m with
    | nil =>
      rw [List.nil_append, assocGet_cons, if_neg (by simp; exact fun h => hne h.symm)]
    | cons q rest ih =>
      rw [List.cons_append, assocGet_cons, assocGet_cons]
      by_cases hq' : q.1 = k'
      · simp [hq']
      · rw [if_neg (by simp [hq']), if_neg (by simp [hq']), ih]
  · clear h
    induction m with
    | nil => rfl
    | cons q rest ih =>
      simp only [List.map_cons]
      by_cases hq : q.1 = k
      · rw [if_pos (by simp [hq]), assocGet_cons, assocGet_cons,
          if_neg (by simp; exact fun h => hne h.symm),
          if_neg (by simp [hq]; exact fun h => hne h.symm)]
        exact ih
      · rw [if_neg (by simp [hq]), assocGet_cons, assocGet_cons]
        by_cases hq' : q.1 = k'
        · simp [hq']
        · rw [if_neg (by simp [hq']), if_neg (by simp [hq']), ih]

theorem mem_assocSet {α : Type} (m : List (String × α)) (k : String) (v : α)
    (p : String × α) (hp : p ∈ assocSet m k v) : p = (k, v) ∨ p ∈ m := by
  unfold assocSet at hp
  by_cases h : m.any (fun p => p.1 == k) = true
  · rw [if_pos h] at hp
    obtain ⟨q, hq, hfq⟩ := List.mem_map.mp hp
    by_cases hqk : q.1 == k
    · left; rw [if_pos hqk] at hfq; exact hfq.symm
    · right; rw [if_neg hqk] at hfq; exact hfq ▸ hq
  · rw [if_neg h] at hp
    rcases List.mem_append.mp hp with hm | hs
    · right; exact hm
    · left; simpa using hs

theorem keys_map_replace {α : Type} (m : List (String × α)) (k : String) (v : α) :
    (m.map (fun p => if p.1 == k then (k, v) else p)).map (·.1) = m.map (·.1) := by
  induction m with
  | nil => rfl
  | cons q rest ih =>
    simp only [List.map_cons]
    by_cases hq : q.1 = k
    · rw [if_pos (by simp [hq])]
      simp only [List.map_cons]
      rw [ih, hq]
    · rw [if_neg (by simp [hq])]
      rw [ih]

theorem not_mem_keys_of_any_false {α : Type} (m : List (String × α)) (k : String)
    (h : m.any (fun p => p.1 == k) = false) : k ∉ m.map (·.1) := by
  intro hk
  obtain ⟨p, hp, hpk⟩ := List.mem_map.mp hk
  have : m.any (fun p => p.1 == k) = true := List.any_eq_true.mpr ⟨p, hp, by simp [hpk]⟩
  simp [this] at h

theorem keys_assocSet_nodup {α : Type} (m : List (String × α)) (k : String) (v : α)
    (h : (m.map (·.1)).Nodup) : ((assocSet m k v).map (·.1)).Nodup := by
  unfold assocSet
  by_cases ha : m.any (fun p => p.1 == k) = true
  · rw [if_pos ha, keys_map_replace]; exact h
  · rw [if_neg ha]
    simp only [List.map_append, List.map_cons, List.map_nil]
    rw [List.nodup_append]
    refine ⟨h, List.nodup_singleton k, ?_⟩
    intro a ha' hb
    simp only [List.mem_singleton] at hb
    exact not_mem_keys_of_any_false m k (Bool.eq_false_iff.mpr ha) (hb ▸ ha')

end UA

namespace UA

open UnityProjectAnalyzer

theorem parseScript_fst (s : AnalyzerState) (p c : String) : (parseScript s p c).1 = s := by
  unfold parseScript
  cases CSharpParser.parse c p with
  | none => rfl
  | some d => cases findAssetByPath s p <;> rfl

theorem parseScene_fst (s : AnalyzerState) (p c : String) : (parseScene s p c).1 = s := by
  unfold parseScene
  cases UnityYAMLParser.parseScene c with
  | none => rfl
  | some d => cases findAssetByPath s p <;> rfl

theorem parsePrefab_fst (s : AnalyzerState) (p c : String) : (parsePrefab s p c).1 = s := by
  unfold parsePrefab
  cases UnityYAMLParser.parsePrefab c with
  | none => rfl
  | some d => cases findAssetByPath s p <;> rfl

theorem parseFile_eq_parseMeta_or_self (s : AnalyzerState) (p c : String) :
    (extOf p = "meta" ∧ parseFile s p c = parseMeta s p c) ∨ parseFile s p c = s := by
  unfold parseFile
  by_cases h1 : extOf p = "meta"
  · left; exact ⟨h1, by rw [if_pos (by simp [h1])]⟩
  · right
    rw [if_neg (by simp [h1])]
    by_cases h2 : extOf p = "cs"
    · rw [if_pos (by simp [h2])]; exact parseScript_fst s p c
    · rw [if_neg (by simp [h2])]
      by_cases h3 : extOf p = "unity"
      · rw [if_pos (by simp [h3])]; exact parseScene_fst s p c
      · rw [if_neg (by simp [h3])]
        by_cases h4 : extOf p = "prefab"
        · rw [if_pos (by simp [h4])]; exact parsePrefab_fst s p c
        · rw [if_neg (by simp [h4])]

theorem parseMeta_projectId (s : AnalyzerState) (p c : String) :
    (parseMeta s p c).projectId = s.projectId := by
  unfold parseMeta
  cases MetaFileParser.parse c <;> rfl

end UA

namespace UA

open UnityProjectAnalyzer

/-- C10: for every (path, content) pair whose extension is not one of
`meta`, `cs`, `unity`, `prefab`, `parseFile` leaves the analyzer state (the
guid-to-asset registry and the constructor fields) unchanged; and among the
four dispatch targets only `parseMeta` ever changes the state —
`parseScript`, `parseScene` and `parsePrefab` read it but return it
untouched, so a state change implies the extension was `meta`. -/
theorem C10_parseFile_frame (s : AnalyzerState) (p c : String) :
    (¬(extOf p = "meta" ∨ extOf p = "cs" ∨ extOf p = "unity" ∨ extOf p = "prefab") →
      parseFile s p c = s) ∧
    (parseScript s p c).1 = s ∧
    (parseScene s p c).1 = s ∧
    (parsePrefab s p c).1 = s ∧
    (parseFile s p c ≠ s → parseFile s p c = parseMeta s p c ∧ extOf p = "meta") := by
  refine ⟨?_, parseScript_fst s p c, parseScene_fst s p c, parsePrefab_fst s p c, ?_⟩
  · intro h
    rcases parseFile_eq_parseMeta_or_self s p c with ⟨hm, _⟩ | hs
    · exact absurd (Or.inl hm) h
    · exact hs
  · intro hne
    rcases parseFile_eq_parseMeta_or_self s p c with ⟨hm, he⟩ | hs
    · exact ⟨he, hm⟩
    · exact absurd hs hne

theorem C10_parseFile_frame_witness :
    (¬(extOf "img.png" = "meta" ∨ extOf "img.png" = "cs" ∨ extOf "img.png" = "unity" ∨
       extOf "img.png" = "prefab")) ∧
    parseFile (initState "P" "id") "img.png" "binary" = initState "P" "id" :=
  ⟨by decide, (C10_parseFile_frame (initState "P" "id") "img.png" "binary").1 (by decide)⟩

/-- C9: `buildDependencyGraph` emits exactly one node per asset — guid, name
(last path segment), type and path — and exactly one edge per dependency
record, translated to source/target/type; an edge whose target matches no
node is still emitted (the witness instantiates this at a dangling edge). -/
theorem C9_buildDependencyGraph_shape (st : UnityProjectStructure) :
    (buildDependencyGraph st).nodes.length = st.assets.length ∧
    (buildDependencyGraph st).edges.length = st.dependencies.length ∧
    (buildDependencyGraph st).nodes = st.assets.map (fun a =>
      { guid := a.guid, name := lastSegment a.asset_path, ntype := a.asset_type,
        path := a.asset_path }) ∧
    ∀ d ∈ st.dependencies,
      ({ source := d.source_guid, target := d.target_guid, etype := d.dependency_type } :
        GraphEdge) ∈ (buildDependencyGraph st).edges := by
  refine ⟨?_, ?_, rfl, ?_⟩
  · simp [buildDependencyGraph]
  · simp [buildDependencyGraph]
  · intro d hd
    exact List.mem_map_of_mem _ hd

theorem C9_buildDependencyGraph_shape_witness :
    ((⟨"aa", "zz", DependencyType.script_usage⟩ : AssetDependency) ∈
      danglingStructure.dependencies) ∧
    (buildDependencyGraph danglingStructure).nodes.map (·.guid) = ["aa"] ∧
    ({ source := "aa", target := "zz", etype := DependencyType.script_usage } : GraphEdge) ∈
      (buildDependencyGraph danglingStructure).edges :=
  ⟨by decide, by decide,
   (C9_buildDependencyGraph_shape danglingStructure).2.2.2
     ⟨"aa", "zz", DependencyType.script_usage⟩ (by decide)⟩

/-- C3 (counterexample): on a source text in which no class declaration is
located (`extractClassName` finds nothing), `CSharpParser.parse` still
returns a structural record rather than the `null` failure marker. -/
theorem C3_no_class_counterexample :
    CSharpParser.extractClassName "int x = 5;" = none ∧
    (CSharpParser.parse "int x = 5;" "Foo.cs").isSome = true :=
  ⟨by decide, by decide⟩

/-- C3 (amended): `CSharpParser.parse` never returns the failure marker —
the `try/catch` is unreachable — and when no class declaration is located it
returns a record whose `class_name` is the empty string
(`className || ''`). -/
theorem C3_parse_total (content filePath : String) :
    (CSharpParser.parse content filePath).isSome = true ∧
    (CSharpParser.parse content filePath).map (·.class_name) =
      some ((CSharpParser.extractClassName content).getD "") :=
  ⟨rfl, rfl⟩

/-- C4 (counterexample): for a prefab file with no discoverable game object,
the synthetic placeholder root is named the literal `Root`, not the prefab
file name without extension (`Enemy`); the record-level `prefab_name` does
carry the file-derived name. -/
theorem C4_placeholder_named_Root_counterexample :
    ((parsePrefab enemyPrefabState "Assets/Enemy.prefab" "no objects").2.map
      (fun p => p.root_object.name)) = some "Root" ∧
    ¬(((parsePrefab enemyPrefabState "Assets/Enemy.prefab" "no objects").2.map
      (fun p => p.root_object.name)) = some "Enemy") ∧
    ((parsePrefab enemyPrefabState "Assets/Enemy.prefab" "no objects").2.map
      (fun p => p.prefab_name)) = some "Enemy" :=
  ⟨by rfl, by decide, by rfl⟩

/-- C4 (amended): when no game object is discovered in the prefab text and
the file path resolves to a registered asset, the analyzer's `parsePrefab`
yields a record whose root object is the synthetic placeholder named the
literal `Root` with fileID `"0"`, no components and no children, and whose
`components` mirrors that empty list.  (The analyzer's own file-name-based
fallback `{name: prefabName, ...}` is dead code: the YAML parser always
supplies a root object.) -/
theorem C4_placeholder_shape (s : AnalyzerState) (path content : String) (a : UnityAsset)
    (hgo : UnityYAMLParser.extractGameObjects content = [])
    (ha : findAssetByPath s path = some a) :
    ((parsePrefab s path content).2.map
      (fun p => (p.root_object.name, p.root_object.fileID, p.root_object.components,
                 p.root_object.children.length, p.components))) =
      some ("Root", "0", ([] : List GoComponent), 0, ([] : List GoComponent)) := by
  unfold parsePrefab UnityYAMLParser.parsePrefab
  rw [hgo, ha]
  rfl

theorem C4_placeholder_shape_witness :
    UnityYAMLParser.extractGameObjects "no objects" = [] ∧
    findAssetByPath enemyPrefabState "Assets/Enemy.prefab" =
      some { project_id := "pid", asset_path := "Assets/Enemy.prefab",
             asset_type := .prefab, guid := "ff00aa", file_hash := "guid: ff00aa",
             fileFormatVersion := 2 } ∧
    ((parsePrefab enemyPrefabState "Assets/Enemy.prefab" "no objects").2.map
      (fun p => (p.root_object.name, p.root_object.fileID, p.root_object.components,
                 p.root_object.children.length, p.components))) =
      some ("Root", "0", ([] : List GoComponent), 0, ([] : List GoComponent)) :=
  ⟨by rfl, by decide,
   C4_placeholder_shape enemyPrefabState "Assets/Enemy.prefab" "no objects"
     { project_id := "pid", asset_path := "Assets/Enemy.prefab", asset_type := .prefab,
       guid := "ff00aa", file_hash := "guid: ff00aa", fileFormatVersion := 2 }
     (by rfl) (by decide)⟩

/-- C7: `MetaFileParser.parse` is total (the `try/catch` is unreachable) and
returns `{guid, fileFormatVersion}` exactly when the first-match scan for a
hexadecimal token after a case-insensitive `guid:` label succeeds, with the
version read from `fileFormatVersion:` and defaulting to `2` when absent;
`null` otherwise.  The concrete conjuncts exercise the case-insensitive
label and hex class, the first-match skip over a failed label, the version
default and override, and the failure marker. -/
theorem C7_meta_parse_contract (content : String) :
    ((MetaFileParser.parse content).map (·.guid) = MetaFileParser.findGuid content) ∧
    ((MetaFileParser.parse content).map (·.fileFormatVersion) =
      (MetaFileParser.findGuid content).map
        (fun _ => (MetaFileParser.findVersion content).getD 2)) ∧
    (MetaFileParser.parse content = none ↔ MetaFileParser.findGuid content = none) ∧
    MetaFileParser.parse "Guid: DEADBEEF" = some ⟨"DEADBEEF", 2⟩ ∧
    MetaFileParser.parse "guid: xyz\nguid: 1a" = some ⟨"1a", 2⟩ ∧
    MetaFileParser.parse "guid: aa\nfileFormatVersion: 99" = some ⟨"aa", 99⟩ ∧
    MetaFileParser.parse "file with no identifier" = none := by
  refine ⟨?_, ?_, ?_, by decide, by decide, by decide, by decide⟩
  · cases h : MetaFileParser.findGuid content with
    | some g => simp [MetaFileParser.parse, h]
    | none => simp [MetaFileParser.parse, h]
  · cases h : MetaFileParser.findGuid content with
    | some g => simp [MetaFileParser.parse, h]
    | none => simp [MetaFileParser.parse, h]
  · cases h : MetaFileParser.findGuid content with
    | some g => simp [MetaFileParser.parse, h]
    | none => simp [MetaFileParser.parse, h]

set_option maxRecDepth 100000 in
/-- C1 (code-bug evidence): after `parseFile` has processed all four files
of the section-8 scenario, the registry does hold the two assets (guids
`abc123` and `def456`) and the C# parser does detect the `Update` message —
but `analyzeProject`, which the scenario's expected output is stated
against, returns the empty structure: 0 assets instead of 2, no scripts, no
dependencies, and an empty graph instead of 2 nodes and 1 edge. -/
theorem C1_analyzeProject_returns_empty :
    (analyzeProject c1Run).assets.length = 0 ∧
    (analyzeProject c1Run).scripts = [] ∧
    (analyzeProject c1Run).dependencies = [] ∧
    buildDependencyGraph (analyzeProject c1Run) = ⟨[], []⟩ ∧
    c1Run.guidToAssetMap.map (fun q => (q.1, q.2.asset_path)) =
      [("abc123", "PlayerController.cs"), ("def456", "Level1.unity")] ∧
    (parseScript c1Run "PlayerController.cs" playerControllerCs).2.map (·.unity_messages) =
      some ["Update"] :=
  ⟨rfl, rfl, rfl, rfl, by decide, by decide⟩

end UA

namespace UA

open UnityProjectAnalyzer

theorem parseMeta_nodup (s : AnalyzerState) (p c : String)
    (h : (s.guidToAssetMap.map (·.1)).Nodup) :
    ((parseMeta s p c).guidToAssetMap.map (·.1)).Nodup := by
  unfold parseMeta
  cases MetaFileParser.parse c with
  | none => exact h
  | some md => exact keys_assocSet_nodup _ _ _ h

theorem parseMeta_coupling (s : AnalyzerState) (p c : String)
    (h : ∀ q ∈ s.guidToAssetMap, q.2.guid = q.1) :
    ∀ q ∈ (parseMeta s p c).guidToAssetMap, q.2.guid = q.1 := by
  unfold parseMeta
  cases MetaFileParser.parse c with
  | none => exact h
  | some md =>
    intro q hq
    rcases mem_assocSet _ _ _ q hq with rfl | hmem
    · rfl
    · exact h q hmem

theorem parseFile_nodup (s : AnalyzerState) (p c : String)
    (h : (s.guidToAssetMap.map (·.1)).Nodup) :
    ((parseFile s p c).guidToAssetMap.map (·.1)).Nodup := by
  rcases parseFile_eq_parseMeta_or_self s p c with ⟨_, he⟩ | he <;> rw [he]
  · exact parseMeta_nodup s p c h
  · exact h

theorem parseFile_coupling (s : AnalyzerState) (p c : String)
    (h : ∀ q ∈ s.guidToAssetMap, q.2.guid = q.1) :
    ∀ q ∈ (parseFile s p c).guidToAssetMap, q.2.guid = q.1 := by
  rcases parseFile_eq_parseMeta_or_self s p c with ⟨_, he⟩ | he <;> rw [he]
  · exact parseMeta_coupling s p c h
  · exact h

theorem runParseFiles_good :
    ∀ (files : List (String × String)) (s : AnalyzerState),
      (s.guidToAssetMap.map (·.1)).Nodup → (∀ q ∈ s.guidToAssetMap, q.2.guid = q.1) →
      ((runParseFiles s files).guidToAssetMap.map (·.1)).Nodup ∧
      ∀ q ∈ (runParseFiles s files).guidToAssetMap, q.2.guid = q.1 := by
  intro files
  induction files with
  | nil => exact fun s h1 h2 => ⟨h1, h2⟩
  | cons f rest ih =>
    intro s h1 h2
    exact ih (parseFile s f.1 f.2) (parseFile_nodup s f.1 f.2 h1)
      (parseFile_coupling s f.1 f.2 h2)

/-- C6: over any run of `parseFile` calls on a fresh analyzer, the registry
keys (the guids under which assets are registered) stay pairwise distinct
and every registered asset's own guid equals its key — no two registered
assets share a guid.  When two meta files carry the same guid text, the
`Map.set` in `parseMeta` overwrites: after both registrations the registry
resolves that guid to the asset built from the later meta file
(last-registration-wins). -/
theorem C6_guid_uniqueness (pp pid : String) (files : List (String × String))
    (s : AnalyzerState) (p1 c1 p2 c2 : String) (md1 md2 : MetaFileParser.MetaData)
    (_hp1 : MetaFileParser.parse c1 = some md1) (_hp2 : MetaFileParser.parse c2 = some md2)
    (_hg : md1.guid = md2.guid) :
    (((runParseFiles (initState pp pid) files).guidToAssetMap.map (·.1)).Nodup ∧
      ∀ q ∈ (runParseFiles (initState pp pid) files).guidToAssetMap, q.2.guid = q.1) ∧
    assocGet (parseMeta (parseMeta s p1 c1) p2 c2).guidToAssetMap md2.guid =
      some (buildAsset s.projectId p2 c2 md2) := by
  constructor
  · exact runParseFiles_good files (initState pp pid) (by simp [initState]) (by simp [initState])
  · show assocGet (parseMeta (parseMeta s p1 c1) p2 c2).guidToAssetMap md2.guid = _
    conv_lhs => rw [parseMeta, _hp2]
    rw [parseMeta_projectId]
    exact assocGet_assocSet_self _ _ _

theorem C6_guid_uniqueness_witness :
    MetaFileParser.parse "guid: abc" = some ⟨"abc", 2⟩ ∧
    MetaFileParser.parse "fileFormatVersion: 3\nguid: abc" = some ⟨"abc", 3⟩ ∧
    (MetaFileParser.MetaData.mk "abc" 2).guid = (MetaFileParser.MetaData.mk "abc" 3).guid ∧
    assocGet (parseMeta (parseMeta (initState "P" "pid") "A.cs.meta" "guid: abc")
        "B.unity.meta" "fileFormatVersion: 3\nguid: abc").guidToAssetMap "abc" =
      some (buildAsset "pid" "B.unity.meta" "fileFormatVersion: 3\nguid: abc" ⟨"abc", 3⟩) :=
  ⟨by decide, by decide, rfl,
   (C6_guid_uniqueness "P" "pid" [] (initState "P" "pid") "A.cs.meta" "guid: abc"
      "B.unity.meta" "fileFormatVersion: 3\nguid: abc" ⟨"abc", 2⟩ ⟨"abc", 3⟩
      (by decide) (by decide) rfl).2⟩

theorem assocGet_bumpCount (m : List (String × Nat)) (k k' : String) :
    (assocGet (bumpCount m k) k').getD 0 =
      (assocGet m k').getD 0 + (if k' = k then 1 else 0) := by
  unfold bumpCount
  by_cases h : k' = k
  · subst h; rw [assocGet_assocSet_self]; simp
  · rw [assocGet_assocSet_ne _ _ _ _ h]; simp [h]

theorem foldl_bumpCount_getD {α : Type} (key : α → String) :
    ∀ (l : List α) (m : List (String × Nat)) (k : String),
      (assocGet (l.foldl (fun m x => bumpCount m (key x)) m) k).getD 0 =
        (assocGet m k).getD 0 + l.countP (fun x => key x == k) := by
  intro l
  induction l with
  | nil => intro m k; simp
  | cons x rest ih =>
    intro m k
    rw [List.foldl_cons, ih, assocGet_bumpCount, List.countP_cons]
    by_cases h : key x = k
    · subst h
      simp only [beq_self_eq_true, if_pos rfl, if_true]
      omega
    · have hb : (key x == k) = false := by simp [h]
      rw [if_neg (fun hh : k = key x => h hh.symm), hb]
      simp

theorem countP_three_partition {β : Type} (p1 p2 p3 : β → Bool)
    (h : ∀ x, (if p1 x then (1 : Nat) else 0) + (if p2 x then 1 else 0) +
      (if p3 x then 1 else 0) = 1) :
    ∀ l : List β, l.countP p1 + l.countP p2 + l.countP p3 = l.length := by
  intro l
  induction l with
  | nil => simp
  | cons x rest ih =>
    simp only [List.countP_cons, List.length_cons]
    have := h x
    omega

theorem scriptCategory_trichotomy (s_ : CSharpParser.ScriptData) :
    (if scriptCategory s_ == "MonoBehaviour" then (1 : Nat) else 0) +
    (if scriptCategory s_ == "ScriptableObject" then (1 : Nat) else 0) +
    (if scriptCategory s_ == "Other" then (1 : Nat) else 0) = 1 := by
  have hcases : scriptCategory s_ = "MonoBehaviour" ∨ scriptCategory s_ = "ScriptableObject" ∨
      scriptCategory s_ = "Other" := by
    unfold scriptCategory
    by_cases h1 : s_.base_types.contains "MonoBehaviour" = true
    · left; rw [if_pos h1]
    · rw [if_neg h1]
      by_cases h2 : s_.base_types.contains "ScriptableObject" = true
      · right; left; rw [if_pos h2]
      · right; right; rw [if_neg h2]
  rcases hcases with h | h | h <;> rw [h] <;> decide

/-- C5 (amended): `generateProjectSummary` classifies every script under
exactly one of MonoBehaviour / ScriptableObject / Other, but by exact string
membership in `base_types` (`Array.prototype.includes` is element equality,
not substring search), MonoBehaviour checked first: the histogram count of
each key equals the number of scripts classified to it, the three counts
partition the scripts, and a script whose only base-type entry is the
qualified `UnityEngine.MonoBehaviour` is classified `Other`. -/
theorem C5_script_categories (st : UnityProjectStructure) (k : String) :
    ((assocGet (generateProjectSummary st).script_categories k).getD 0 =
      st.scripts.countP (fun s_ => scriptCategory s_ == k)) ∧
    ((assocGet (generateProjectSummary st).script_categories "MonoBehaviour").getD 0 +
      (assocGet (generateProjectSummary st).script_categories "ScriptableObject").getD 0 +
      (assocGet (generateProjectSummary st).script_categories "Other").getD 0 =
      st.scripts.length) ∧
    scriptCategory qualScript = "Other" := by
  have hall : ∀ k' : String,
      (assocGet (generateProjectSummary st).script_categories k').getD 0 =
        st.scripts.countP (fun s_ => scriptCategory s_ == k') := by
    intro k'
    show (assocGet (scriptCategories st) k').getD 0 = _
    unfold scriptCategories
    rw [foldl_bumpCount_getD scriptCategory st.scripts [] k']
    simp [assocGet_nil]
  refine ⟨hall k, ?_, by decide⟩
  rw [hall "MonoBehaviour", hall "ScriptableObject", hall "Other"]
  exact countP_three_partition _ _ _ (fun x => scriptCategory_trichotomy x) st.scripts

/-- C5 (counterexample): a script one of whose `base_types` entries contains
`"MonoBehaviour"` as a substring without being equal to it — the entry
`"UnityEngine.MonoBehaviour"` — is counted under `Other`, and no
`MonoBehaviour` bucket exists at all, contradicting the claim that such a
script is counted under MonoBehaviour and never under Other. -/
theorem C5_qualified_base_counterexample :
    qualScript.base_types = ["UnityEngine.MonoBehaviour"] ∧
    (UA.findFirstMap (UA.dropLit "MonoBehaviour".data)
      "UnityEngine.MonoBehaviour".data).isSome = true ∧
    (generateProjectSummary qualStructure).script_categories = [("Other", 1)] ∧
    assocGet (generateProjectSummary qualStructure).script_categories "MonoBehaviour" = none :=
  ⟨rfl, by decide, by decide, by decide⟩

end UA

namespace UA

open UnityProjectAnalyzer

theorem mem_insertByCountDesc (x b : String × Nat) :
    ∀ l : List (String × Nat), b ∈ insertByCountDesc x l ↔ b = x ∨ b ∈ l := by
  intro l
  induction l with
  | nil => simp [insertByCountDesc]
  | cons y ys ih =>
    unfold insertByCountDesc
    by_cases hc : y.2 < x.2
    · rw [if_pos hc]
      simp [List.mem_cons, or_comm, or_assoc, or_left_comm]
    · rw [if_neg hc]
      simp only [List.mem_cons, ih]
      tauto

theorem pairwise_insertByCountDesc (x : String × Nat) :
    ∀ l : List (String × Nat), l.Pairwise (fun a b => b.2 ≤ a.2) →
      (insertByCountDesc x l).Pairwise (fun a b => b.2 ≤ a.2) := by
  intro l
  induction l with
  | nil => simp [insertByCountDesc]
  | cons y ys ih =>
    intro h
    rw [List.pairwise_cons] at h
    unfold insertByCountDesc
    by_cases hc : y.2 < x.2
    · rw [if_pos hc]
      rw [List.pairwise_cons]
      refine ⟨?_, List.pairwise_cons.mpr h⟩
      intro b hb
      rcases List.mem_cons.mp hb with rfl | hbys
      · exact Nat.le_of_lt hc
      · exact le_trans (h.1 b hbys) (Nat.le_of_lt hc)
    · rw [if_neg hc]
      rw [List.pairwise_cons]
      refine ⟨?_, ih h.2⟩
      intro b hb
      rcases (mem_insertByCountDesc x b ys).mp hb with rfl | hbys
      · omega
      · exact h.1 b hbys

theorem sortByCountDesc_aux_pairwise :
    ∀ (l acc : List (String × Nat)), acc.Pairwise (fun a b => b.2 ≤ a.2) →
      (l.foldl (fun acc x => insertByCountDesc x acc) acc).Pairwise (fun a b => b.2 ≤ a.2) := by
  intro l
  induction l with
  | nil => exact fun acc h => h
  | cons x rest ih =>
    intro acc h
    exact ih (insertByCountDesc x acc) (pairwise_insertByCountDesc x acc h)

theorem sortByCountDesc_pairwise (l : List (String × Nat)) :
    (sortByCountDesc l).Pairwise (fun a b => b.2 ≤ a.2) :=
  sortByCountDesc_aux_pairwise l [] (List.Pairwise.nil)

theorem filter_insertByCountDesc (x : String × Nat) (c : Nat) :
    ∀ l : List (String × Nat), l.Pairwise (fun a b => b.2 ≤ a.2) →
      (insertByCountDesc x l).filter (fun e => e.2 == c) =
        l.filter (fun e => e.2 == c) ++ (if x.2 == c then [x] else []) := by
  intro l
  induction l with
  | nil =>
    intro _
    unfold insertByCountDesc
    cases h : x.2 == c <;> simp [List.filter_cons, h]
  | cons y ys ih =>
    intro h
    rw [List.pairwise_cons] at h
    unfold insertByCountDesc
    by_cases hc : y.2 < x.2
    · rw [if_pos hc]
      by_cases hx : x.2 = c
      · have hy : (y.2 == c) = false := by simp; omega
        have hys : ys.filter (fun e => e.2 == c) = [] := by
          apply List.filter_eq_nil_iff.mpr
          intro b hb
          have := h.1 b hb
          simp
          omega
        simp [List.filter_cons, hx, hy, hys]
      · have hxb : (x.2 == c) = false := by simp [hx]
        simp [List.filter_cons, hxb]
    · rw [if_neg hc]
      rw [List.filter_cons, List.filter_cons]
      cases hy : y.2 == c
      · simpa using ih h.2
      · rw [ih h.2]
        simp

theorem filter_sortByCountDesc_aux (c : Nat) :
    ∀ (l acc : List (String × Nat)), acc.Pairwise (fun a b => b.2 ≤ a.2) →
      (l.foldl (fun acc x => insertByCountDesc x acc) acc).filter (fun e => e.2 == c) =
        acc.filter (fun e => e.2 == c) ++ l.filter (fun e => e.2 == c) := by
  intro l
  induction l with
  | nil => intro acc _; simp
  | cons x rest ih =>
    intro acc h
    rw [List.foldl_cons, ih (insertByCountDesc x acc) (pairwise_insertByCountDesc x acc h),
      filter_insertByCountDesc x c acc h, List.filter_cons]
    cases hx : x.2 == c <;> simp [List.append_assoc]

/-- Stability of the embedded sort: for every count value, the entries
carrying that count appear in the sorted list exactly as they appear in the
input. -/
theorem filter_sortByCountDesc (l : List (String × Nat)) (c : Nat) :
    (sortByCountDesc l).filter (fun e => e.2 == c) = l.filter (fun e => e.2 == c) := by
  have := filter_sortByCountDesc_aux c l [] List.Pairwise.nil
  simpa [sortByCountDesc] using this

theorem mem_sortByCountDesc (l : List (String × Nat)) (e : String × Nat)
    (he : e ∈ sortByCountDesc l) : e ∈ l := by
  have hf : e ∈ (sortByCountDesc l).filter (fun p => p.2 == e.2) :=
    List.mem_filter.mpr ⟨he, by simp⟩
  rw [filter_sortByCountDesc] at hf
  exact (List.mem_filter.mp hf).1

theorem bumpCount_keys_nodup (m : List (String × Nat)) (k : String)
    (h : (m.map (·.1)).Nodup) : ((bumpCount m k).map (·.1)).Nodup :=
  keys_assocSet_nodup m k _ h

theorem foldl_bumpCount_nodup {α : Type} (key : α → String) :
    ∀ (l : List α) (m : List (String × Nat)), (m.map (·.1)).Nodup →
      ((l.foldl (fun m x => bumpCount m (key x)) m).map (·.1)).Nodup := by
  intro l
  induction l with
  | nil => exact fun m h => h
  | cons x rest ih =>
    intro m h
    exact ih (bumpCount m (key x)) (bumpCount_keys_nodup m (key x) h)

theorem foldl_bumpCount_pos {α : Type} (key : α → String) :
    ∀ (l : List α) (m : List (String × Nat)), (∀ q ∈ m, 1 ≤ q.2) →
      ∀ q ∈ l.foldl (fun m x => bumpCount m (key x)) m, 1 ≤ q.2 := by
  intro l
  induction l with
  | nil => exact fun m h => h
  | cons x rest ih =>
    intro m h
    refine ih (bumpCount m (key x)) ?_
    intro q hq
    rcases mem_assocSet _ _ _ q hq with rfl | hmem
    · simp
    · exact h q hmem

theorem assocGet_of_mem_nodup {α : Type} :
    ∀ (m : List (String × α)) (k : String) (v : α), (k, v) ∈ m →
      (m.map (·.1)).Nodup → assocGet m k = some v := by
  intro m
  induction m with
  | nil => intro k v hm; simp at hm
  | cons q rest ih =>
    intro k v hm hn
    rw [List.map_cons, List.nodup_cons] at hn
    rw [assocGet_cons]
    rcases List.mem_cons.mp hm with rfl | hmem
    · simp
    · by_cases hq : q.1 = k
      · exfalso
        exact hn.1 (hq ▸ List.mem_map.mpr ⟨(k, v), hmem, rfl⟩)
      · rw [if_neg (by simp [hq])]
        exact ih k v hmem hn.2

end UA

namespace UA

open UnityProjectAnalyzer

/-- C8: `mostReferencedAssets` counts inbound dependency edges per target
guid, sorts descending by count with insertion order preserved among ties
(the stable-sort filter property below), keeps at most 10 entries, excludes
every guid with zero inbound edges (every listed count is positive and equals
the number of edges targeting that guid), and falls back to the display name
`Unknown` when no asset carries the counted guid.  The concrete conjunct is
the section-8 ranking example: A (5 edges) is listed before B (2 edges) and
C (0 edges) is absent. -/
theorem C8_most_referenced (st : UnityProjectStructure) :
    (generateProjectSummary st).most_referenced_assets = mostReferencedAssets st ∧
    (mostReferencedAssets st).length ≤ 10 ∧
    (mostReferencedAssets st).Pairwise
      (fun x y => y.reference_count ≤ x.reference_count) ∧
    (∀ e ∈ mostReferencedAssets st,
      e.reference_count = st.dependencies.countP (fun d => d.target_guid == e.guid) ∧
      0 < e.reference_count ∧
      (st.assets.find? (fun a => a.guid == e.guid) = none → e.name = "Unknown")) ∧
    (∀ c : Nat, (sortByCountDesc (referenceCounts st)).filter (fun p => p.2 == c) =
      (referenceCounts st).filter (fun p => p.2 == c)) ∧
    (mostReferencedAssets rankStructure).map (fun e => (e.guid, e.name, e.reference_count)) =
      [("a", "A.cs", 5), ("b", "B.cs", 2)] := by
  refine ⟨rfl, ?_, ?_, ?_, fun c => filter_sortByCountDesc _ c, by decide⟩
  · unfold mostReferencedAssets
    rw [List.length_map, List.length_take]
    exact Nat.min_le_left _ _
  · unfold mostReferencedAssets
    rw [List.pairwise_map]
    exact List.Pairwise.sublist (List.take_sublist _ _) (sortByCountDesc_pairwise _)
  · intro e he
    unfold mostReferencedAssets at he
    obtain ⟨p, hp, rfl⟩ := List.mem_map.mp he
    have hpfull : p ∈ sortByCountDesc (referenceCounts st) := List.take_subset _ _ hp
    have hpin : p ∈ referenceCounts st := mem_sortByCountDesc _ p hpfull
    have hnodup : ((referenceCounts st).map (·.1)).Nodup :=
      foldl_bumpCount_nodup (fun d : AssetDependency => d.target_guid) st.dependencies []
        (by simp)
    have hget : assocGet (referenceCounts st) p.1 = some p.2 :=
      assocGet_of_mem_nodup _ p.1 p.2 (by simpa using hpin) hnodup
    have hcount : p.2 = st.dependencies.countP (fun d => d.target_guid == p.1) := by
      have h2 := foldl_bumpCount_getD (fun d : AssetDependency => d.target_guid)
        st.dependencies [] p.1
      unfold referenceCounts at hget
      rw [hget] at h2
      simpa [assocGet_nil] using h2
    have hpos : 1 ≤ p.2 :=
      foldl_bumpCount_pos (fun d : AssetDependency => d.target_guid) st.dependencies []
        (by simp) p (by unfold referenceCounts at hpin; exact hpin)
    refine ⟨hcount, hpos, ?_⟩
    intro hfind
    simp only at hfind ⊢
    rw [hfind]

theorem C8_most_referenced_witness :
    (({ guid := "a", name := "A.cs", reference_count := 5 } : RefEntry) ∈
      mostReferencedAssets rankStructure) ∧
    ({ guid := "a", name := "A.cs", reference_count := 5 } : RefEntry).reference_count =
      rankStructure.dependencies.countP (fun d =>
        d.target_guid == ({ guid := "a", name := "A.cs", reference_count := 5 } : RefEntry).guid) ∧
    0 < ({ guid := "a", name := "A.cs", reference_count := 5 } : RefEntry).reference_count :=
  ⟨by decide,
   ((C8_most_referenced rankStructure).2.2.2.1 _ (by decide)).1,
   ((C8_most_referenced rankStructure).2.2.2.1 _ (by decide)).2.1⟩

end UA

namespace UA

open UnityProjectAnalyzer

theorem nFresh_cons_U (u : String) (us v : List String) :
    nFresh (u :: us) v = (if u ∈ v then 0 else 1) + nFresh us v := by
  unfold nFresh
  rw [List.filter_cons]
  by_cases hu : u ∈ v
  · have hb : (!(v.contains u)) = false := by simp [List.elem_iff, hu]
    simp [hb, hu]
  · have hb : (!(v.contains u)) = true := by simp [List.elem_iff, hu]
    simp [hb, hu]
    omega

theorem nFresh_mono (U : List String) (v v' : List String) (h : ∀ g ∈ v, g ∈ v') :
    nFresh U v' ≤ nFresh U v := by
  induction U with
  | nil => simp [nFresh]
  | cons u us ih =>
    rw [nFresh_cons_U, nFresh_cons_U]
    by_cases hu : u ∈ v
    · have hu' : u ∈ v' := h u hu
      simp only [hu, hu', if_true]
      omega
    · by_cases hu' : u ∈ v'
      · simp only [hu, hu', if_true, if_false]
        omega
      · simp only [hu, hu', if_false]
        omega

theorem nFresh_cons_lt (U : List String) (g : String) (v : List String)
    (hg : g ∈ U) (hv : g ∉ v) : nFresh U (g :: v) < nFresh U v := by
  induction U with
  | nil => simp at hg
  | cons u us ih =>
    rw [nFresh_cons_U, nFresh_cons_U]
    rcases List.mem_cons.mp hg with rfl | hgus
    · have h1 : g ∈ g :: v := List.mem_cons_self g v
      simp only [h1, hv, if_true, if_false]
      have := nFresh_mono us v (g :: v) (fun x hx => List.mem_cons_of_mem g hx)
      omega
    · have hmono := nFresh_mono us v (g :: v) (fun x hx => List.mem_cons_of_mem g hx)
      have hlt := ih hgus
      by_cases hu : u ∈ v
      · have hu' : u ∈ g :: v := List.mem_cons_of_mem g hu
        simp only [hu, hu', if_true]
        omega
      · by_cases hu' : u ∈ g :: v
        · simp only [hu, hu', if_true, if_false]
          omega
        · simp only [hu, hu', if_false]
          omega

theorem dfs_total (deps : List AssetDependency) (U : List String)
    (hU : ∀ d ∈ deps, d.target_guid ∈ U) :
    ∀ fuel : Nat, ∀ (guid : String) (depth : Nat) (s : DfsState), guid ∈ U →
      nFresh U s.visited < fuel →
      ∃ s', dfs deps fuel guid depth s = some s' ∧ ∀ g ∈ s.visited, g ∈ s'.visited := by
  intro fuel
  induction fuel with
  | zero => exact fun _ _ _ _ h => absurd h (Nat.not_lt_zero _)
  | succ f ih =>
    intro guid depth s hg hlt
    have hfold : ∀ (ds : List AssetDependency) (dep1 : Nat) (s0 : DfsState),
        (∀ d ∈ ds, d.target_guid ∈ U) → nFresh U s0.visited < f →
        ∃ s', (ds.foldl (fun acc d =>
              match acc with
              | some s2 => dfs deps f d.target_guid dep1 s2
              | none => none) (some s0)) = some s' ∧
          ∀ g ∈ s0.visited, g ∈ s'.visited := by
      intro ds
      induction ds with
      | nil => exact fun dep1 s0 _ _ => ⟨s0, rfl, fun g h => h⟩
      | cons d rest ihds =>
        intro dep1 s0 hds hlt0
        obtain ⟨s2, hs2, hm2⟩ := ih d.target_guid dep1 s0 (hds d (List.mem_cons_self d rest)) hlt0
        obtain ⟨s3, hs3, hm3⟩ := ihds dep1 s2 (fun d' hd' => hds d' (List.mem_cons_of_mem d hd'))
          (lt_of_le_of_lt (nFresh_mono U s0.visited s2.visited hm2) hlt0)
        refine ⟨s3, ?_, fun g h => hm3 g (hm2 g h)⟩
        rw [List.foldl_cons]
        dsimp only
        rw [hs2]
        exact hs3
    by_cases hv : guid ∈ s.visited
    · exact ⟨s, by rw [dfs, if_pos hv], fun g h => h⟩
    · have hlt1 : nFresh U (guid :: s.visited) < f := by
        have := nFresh_cons_lt U guid s.visited hg hv
        omega
      obtain ⟨s', hse, hsm⟩ := hfold (depsFrom deps guid) (depth + 1)
        ⟨guid :: s.visited, max s.maxDepth depth⟩
        (fun d hd => hU d (List.mem_of_mem_filter hd)) hlt1
      refine ⟨s', ?_, fun g h => hsm g (List.mem_cons_of_mem guid h)⟩
      rw [dfs, if_neg hv]
      exact hse

theorem depthLoop_total (deps : List AssetDependency) (U : List String) (fuel : Nat)
    (hU : ∀ d ∈ deps, d.target_guid ∈ U) :
    ∀ (asList : List UnityAsset) (s : DfsState),
      (∀ a ∈ asList, a.guid ∈ U) → nFresh U s.visited < fuel →
      ∃ s', depthLoop deps fuel asList s = some s' := by
  intro asList
  induction asList with
  | nil => exact fun s _ _ => ⟨s, rfl⟩
  | cons a rest ih =>
    intro s has hlt
    by_cases hv : a.guid ∈ s.visited
    · obtain ⟨s', hs'⟩ := ih s (fun b hb => has b (List.mem_cons_of_mem a hb)) hlt
      exact ⟨s', by rw [depthLoop, if_pos hv]; exact hs'⟩
    · obtain ⟨s2, hs2, hm2⟩ := dfs_total deps U hU fuel a.guid 0 s
        (has a (List.mem_cons_self a rest)) hlt
      obtain ⟨s', hs'⟩ := ih s2 (fun b hb => has b (List.mem_cons_of_mem a hb))
        (lt_of_le_of_lt (nFresh_mono U s.visited s2.visited hm2) hlt)
      exact ⟨s', by rw [depthLoop, if_neg hv, hs2]; exact hs'⟩

/-- C2 (amended, refuting the claim): the depth-first traversal of
`calculateDependencyDepth` terminates on every finite structure, cyclic
dependency records included — the global visited set is itself a recursion
guard, because every guid is marked visited before its targets are explored
and an already-visited guid returns immediately.  Formally: with stack
budget `fuelBound` (one frame per asset guid or dependency target, plus
one), the fuel is never exhausted, so there is no structure on which the
source recursion fails to return. -/
theorem C2_traversal_terminates (st : UnityProjectStructure) :
    (calculateDependencyDepth st).isSome = true := by
  unfold calculateDependencyDepth
  obtain ⟨s', hs'⟩ := depthLoop_total st.dependencies (guidUniverse st) (fuelBound st)
    (fun d hd => List.mem_append_right _ (List.mem_map_of_mem _ hd))
    st.assets ⟨[], 0⟩
    (fun a ha => List.mem_append_left _ (List.mem_map_of_mem _ ha))
    (by
      show nFresh (guidUniverse st) [] < fuelBound st
      have hle : nFresh (guidUniverse st) [] ≤ (guidUniverse st).length :=
        List.length_filter_le _ _
      have hlen : (guidUniverse st).length =
          st.assets.length + st.dependencies.length := by
        simp [guidUniverse]
      unfold fuelBound
      omega)
  rw [hs']
  rfl

/-- C2 (counterexample): on the claim's own witness shape — registered
assets `aa`, `bb` with the dependency cycle `aa → bb` and `bb → aa` — the
embedded traversal returns (depth 1) instead of recursing forever: the
visited-set guard stops the cycle at its second visit of `aa`. -/
theorem C2_cycle_counterexample :
    cyclicStructure.dependencies =
      [⟨"aa", "bb", DependencyType.prefab_instance⟩,
       ⟨"bb", "aa", DependencyType.prefab_instance⟩] ∧
    calculateDependencyDepth cyclicStructure = some 1 :=
  ⟨rfl, by decide⟩

end UA
